import Mathlib

/-!
Verification of the Mordor-Elastic data shipper
(src/scripts/data-shippers/Mordor-Elastic.py).

The script streams newline-delimited JSON records out of tar.gz archives,
normalizes each record into the winlog schema inside the generator
`generate_actions`, and ships the records to Elasticsearch (bulk) or
Logstash (one HTTP POST per record).

We embed the record-normalization logic and the shipping loop shallowly:
JSON values are an inductive type, Python dicts are association lists with
insertion-order semantics (assignment replaces in place or appends; `del`
removes the key), and each fallible Python operation (KeyError / TypeError
paths that the script does not catch) returns `Option`.
-/

namespace Mordor

/-- JSON values as decoded by `json.loads`.  Numbers are modelled as
integers (the event ids the script manipulates are integers). -/
inductive Json where
  | null : Json
  | bool (b : Bool) : Json
  | num (n : Int) : Json
  | str (s : String) : Json
  | arr (elems : List Json) : Json
  | obj (fields : List (String × Json)) : Json

/-- A Python dict with string keys, as an insertion-ordered association
list.  `json.loads` yields dicts with pairwise-distinct keys; all the
operations below treat the first occurrence of a key as authoritative. -/
abbrev Dict := List (String × Json)

/-- `d[k]`: first binding of `k`, if any. -/
def lookupKey : Dict → String → Option Json
  | [], _ => none
  | (k', v) :: rest, k => if k' = k then some v else lookupKey rest k

/-- `d[k] = v`: replace the value in place if the key is present,
otherwise append the new binding (Python dict assignment). -/
def insertKey : Dict → String → Json → Dict
  | [], k, v => [(k, v)]
  | (k', v') :: rest, k, v =>
    if k' = k then (k, v) :: rest else (k', v') :: insertKey rest k v

/-- `del d[k]`: drop every binding of `k` (a Python dict holds at most
one). -/
def eraseKey : Dict → String → Dict
  | [], _ => []
  | (k', v) :: rest, k =>
    if k' = k then eraseKey rest k else (k', v) :: eraseKey rest k

theorem lookup_insert_self (l : Dict) (k : String) (v : Json) :
    lookupKey (insertKey l k v) k = some v := by
  induction l with
  | nil => simp [insertKey, lookupKey]
  | cons kv rest ih =>
    obtain ⟨k', v'⟩ := kv
    by_cases h : k' = k
    · simp [insertKey, lookupKey, h]
    · simp [insertKey, lookupKey, h, ih]

theorem lookup_insert_ne (l : Dict) (k k' : String) (v : Json) (h : k' ≠ k) :
    lookupKey (insertKey l k v) k' = lookupKey l k' := by
  induction l with
  | nil => simp [insertKey, lookupKey, Ne.symm h]
  | cons kv rest ih =>
    obtain ⟨k₀, v₀⟩ := kv
    by_cases h₀ : k₀ = k
    · subst h₀
      simp [insertKey, lookupKey, Ne.symm h]
    · simp [insertKey, lookupKey, h₀, ih]

theorem lookup_erase (l : Dict) (k k' : String) :
    lookupKey (eraseKey l k) k' = if k' = k then none else lookupKey l k' := by
  induction l with
  | nil => simp [eraseKey, lookupKey]
  | cons kv rest ih =>
    obtain ⟨k₀, v₀⟩ := kv
    by_cases h₀ : k₀ = k
    · subst h₀
      by_cases h₁ : k' = k₀
      · subst h₁
        simp [eraseKey, lookupKey, ih]
      · simp [eraseKey, lookupKey, h₁, Ne.symm h₁, ih]
    · by_cases h₁ : k₀ = k'
      · subst h₁
        simp [eraseKey, lookupKey, h₀]
      · simp [eraseKey, lookupKey, h₀, h₁, ih]

theorem lookup_erase_self (l : Dict) (k : String) :
    lookupKey (eraseKey l k) k = none := by
  simp [lookup_erase]

theorem lookup_erase_ne (l : Dict) (k k' : String) (h : k' ≠ k) :
    lookupKey (eraseKey l k) k' = lookupKey l k' := by
  simp [lookup_erase, h]

theorem insert_lookup_eq_self (l : Dict) (k : String) (v : Json)
    (h : lookupKey l k = some v) : insertKey l k v = l := by
  induction l with
  | nil => simp [lookupKey] at h
  | cons kv rest ih =>
    obtain ⟨k₀, v₀⟩ := kv
    by_cases h₀ : k₀ = k
    · subst h₀
      simp [lookupKey] at h
      simp [insertKey, h]
    · simp [lookupKey, h₀] at h
      simp [insertKey, h₀, ih h]

/-- The value the script stores under `log`:
`source["log"] = { "file": { "name": logfile }}` (line 90). -/
def logValue (label : String) : Json :=
  .obj [("file", .obj [("name", .str label)])]

/-- Line 90: `source["log"] = { "file": { "name": logfile }}`.  Runs before
every relocation rule, so any raw `log` value is overwritten. -/
def setLog (label : String) (s : Dict) : Dict :=
  insertKey s "log" (logValue label)

/-- Line 91: `source.setdefault("winlog", dict())`. -/
def ensureWinlog (s : Dict) : Dict :=
  if (lookupKey s "winlog").isSome then s else insertKey s "winlog" (.obj [])

/-- The keys excluded from the move into `winlog.event_data`
(line 114 of the script). -/
def reservedKeys : List String :=
  ["winlog", "log", "Channel", "Hostname", "@timestamp", "@version"]

/-- Lines 111-115: the dict comprehension that collects every top-level
field not in the reserved set, in insertion order. -/
def eventDataOf (s : Dict) : Dict :=
  s.filter (fun kv => !(reservedKeys.contains kv.1))

/-- Lines 94-131: the `if "EventID" in source` block (legacy nxlog shape).
Moves `EventID` to `winlog.event_id`, discards `type` and `host`, moves
all non-reserved top-level fields into `winlog.event_data`, then relocates
`Hostname` and `Channel`.  Subscripting a non-dict `winlog` raises an
uncaught TypeError in Python, modelled as `none`; the `except KeyError`
handlers around the `Hostname`/`Channel` moves are modelled by the
key-absent branches. -/
def moveNxlog (s : Dict) : Option Dict :=
  match lookupKey s "EventID" with
  | none => some s
  | some ev =>
    match lookupKey s "winlog" with
    | some (.obj w) =>
      let sa := insertKey s "winlog" (.obj (insertKey w "event_id" ev))
      let sb := eraseKey (eraseKey (eraseKey sa "EventID") "type") "host"
      let ed := eventDataOf sb
      match lookupKey sb "winlog" with
      | some (.obj w₂) =>
        let sc := insertKey sb "winlog" (.obj (insertKey w₂ "event_data" (.obj ed)))
        let sd := ed.foldl (fun acc kv => eraseKey acc kv.1) sc
        match
          (match lookupKey sd "Hostname" with
          | none => some sd
          | some h =>
            match lookupKey sd "winlog" with
            | none => some sd
            | some (.obj w₃) =>
              some (eraseKey
                (insertKey sd "winlog" (.obj (insertKey w₃ "computer_name" h))) "Hostname")
            | some _ => none)
        with
        | none => none
        | some se =>
          match lookupKey se "Channel" with
          | none => some se
          | some c =>
            match lookupKey se "winlog" with
            | none => some se
            | some (.obj w₄) =>
              some (eraseKey
                (insertKey se "winlog" (.obj (insertKey w₄ "channel" c))) "Channel")
            | some _ => none
      | _ => none
    | _ => none

/-- Lines 134-136: `if "event_data" in source:` move the pre-v7 winlogbeat
`event_data` field to `winlog.event_data`. -/
def moveEventData (s : Dict) : Option Dict :=
  match lookupKey s "event_data" with
  | none => some s
  | some ed =>
    match lookupKey s "winlog" with
    | some (.obj w) =>
      some (eraseKey (insertKey s "winlog" (.obj (insertKey w "event_data" ed))) "event_data")
    | _ => none

/-- Lines 138-140: `if "log_name" in source:` move the old channel field to
`winlog.channel`. -/
def moveLogName (s : Dict) : Option Dict :=
  match lookupKey s "log_name" with
  | none => some s
  | some c =>
    match lookupKey s "winlog" with
    | some (.obj w) =>
      some (eraseKey (insertKey s "winlog" (.obj (insertKey w "channel" c))) "log_name")
    | _ => none

/-- Lines 142-146: rewrite a lowercase channel name `"security"` to
`"Security"`.  The `try` block catches only KeyError, so a missing
`winlog` or missing `channel` is a no-op, while a non-dict `winlog`
raises (TypeError), modelled as `none`. -/
def fixChannel (s : Dict) : Option Dict :=
  match lookupKey s "winlog" with
  | none => some s
  | some (.obj w) =>
    match lookupKey w "channel" with
    | some (.str c) =>
      if c = "security" then
        some (insertKey s "winlog" (.obj (insertKey w "channel" (.str "Security"))))
      else some s
    | _ => some s
  | some _ => none

/-- Lines 148-150: `if "event_id" in source:` move the other legacy
event-id location to `winlog.event_id`. -/
def moveEventId (s : Dict) : Option Dict :=
  match lookupKey s "event_id" with
  | none => some s
  | some v =>
    match lookupKey s "winlog" with
    | some (.obj w) =>
      some (eraseKey (insertKey s "winlog" (.obj (insertKey w "event_id" v))) "event_id")
    | _ => none

/-- Line 152: `source.setdefault("event", dict())["code"] =
source["winlog"]["event_id"]`.  Python evaluates the right-hand side
first, so a missing `winlog.event_id` raises KeyError before `event` is
created; a non-dict `winlog` or `event` raises TypeError. -/
def setEventCode (s : Dict) : Option Dict :=
  match lookupKey s "winlog" with
  | some (.obj w) =>
    match lookupKey w "event_id" with
    | none => none
    | some eid =>
      match lookupKey s "event" with
      | none => some (insertKey s "event" (.obj [("code", eid)]))
      | some (.obj e) => some (insertKey s "event" (.obj (insertKey e "code" eid)))
      | some _ => none
  | _ => none

/-- The full per-record normalization performed by `generate_actions`
(lines 90-152), in source order. -/
def normalize (label : String) (src : Dict) : Option Dict :=
  (moveNxlog (ensureWinlog (setLog label src))).bind fun s₃ =>
  (moveEventData s₃).bind fun s₄ =>
  (moveLogName s₄).bind fun s₅ =>
  (fixChannel s₅).bind fun s₆ =>
  (moveEventId s₆).bind fun s₇ =>
  setEventCode s₇

/-! ## The shipping pipeline

Lines 68-185 of the script: the size-scan pass, the per-member line loop
inside `generate_actions`, the per-record Logstash POST loop, and the
aggregation of per-member counters into run totals.  Byte streams are
lists of bytes (as naturals); `json.loads` is an oracle parameter
`parse`; the HTTP POST is an oracle `post` returning the response status
code. -/

/-- One file member of a tar archive.  `content` is the decompressed byte
stream handed out by `tf.extractfile(m)`. -/
structure Member where
  name : String
  content : List Nat

/-- `member.size` as read from the tar header during the size-scan pass
(lines 69-73): the byte length of the member's content. -/
def Member.size (m : Member) : Nat := m.content.length

/-- A tar.gz archive: its path and its file members. -/
structure Archive where
  path : String
  members : List Member

/-- Iterating a binary file object yields chunks split after each
newline byte (10); a trailing chunk without a newline is still yielded. -/
def splitAfterNL : List Nat → List (List Nat)
  | [] => []
  | b :: rest =>
    if b = 10 then [b] :: splitAfterNL rest
    else
      match splitAfterNL rest with
      | [] => [[b]]
      | l :: ls => (b :: l) :: ls

/-- The body of `generate_actions` fused with the Logstash send loop
(lines 87-154 and 170-182): for each line, `json.loads` (abort the member
on failure), `normalize` (a raised KeyError/TypeError also aborts), add
the line's byte length to the progress counter, POST the record and count
success exactly when the status is 200.  The accumulator is
(success count, fail count, bytes consumed). -/
def shipLines (post : Dict → Nat) (parse : List Nat → Option Dict) (label : String) :
    List (List Nat) → Nat × Nat × Nat → Except Unit (Nat × Nat × Nat)
  | [], acc => .ok acc
  | line :: rest, (s, f, b) =>
    match parse line with
    | none => .error ()
    | some raw =>
      match normalize label raw with
      | none => .error ()
      | some rec =>
        if post rec = 200 then shipLines post parse label rest (s + 1, f, b + line.length)
        else shipLines post parse label rest (s, f + 1, b + line.length)

/-- Processing of one member file: run `shipLines` over the member's
lines starting from zeroed counters. -/
def processMember (post : Dict → Nat) (parse : List Nat → Option Dict)
    (label : String) (content : List Nat) : Except Unit (Nat × Nat × Nat) :=
  shipLines post parse label (splitAfterNL content) (0, 0, 0)

/-- Lines 82-183: the member loop of one archive.  The label passed to
`normalize` is `f"{path}/{m.name}"`.  An exception raised while a member
is processed is not caught anywhere, so it propagates. -/
def runMembers (post : Dict → Nat) (parse : List Nat → Option Dict)
    (path : String) : List Member → Except Unit (Nat × Nat)
  | [] => .ok (0, 0)
  | m :: rest =>
    match processMember post parse (path ++ "/" ++ m.name) m.content with
    | .error e => .error e
    | .ok (s, f, _) =>
      match runMembers post parse path rest with
      | .error e => .error e
      | .ok (ts, tf) => .ok (s + ts, f + tf)

/-- Lines 79-185: the archive loop.  `total_success`/`total_failed` are
the summed per-member counts; any uncaught exception aborts the run
before the final totals are printed. -/
def runArchives (post : Dict → Nat) (parse : List Nat → Option Dict) :
    List Archive → Except Unit (Nat × Nat)
  | [] => .ok (0, 0)
  | a :: rest =>
    match runMembers post parse a.path a.members with
    | .error e => .error e
    | .ok (s, f) =>
      match runArchives post parse rest with
      | .error e => .error e
      | .ok (ts, tf) => .ok (s + ts, f + tf)

/-- Lines 170-182 in isolation: the Logstash send loop over the stream of
normalized events, accumulating (success_count, fail_count) exactly as
the two counters in the script. -/
def logstashSend (post : Dict → Nat) (events : List Dict) : Nat × Nat :=
  events.foldl
    (fun sf e => if post e = 200 then (sf.1 + 1, sf.2) else (sf.1, sf.2 + 1))
    (0, 0)

/-! ## Properties of the normalization phases -/

theorem lookup_setLog_log (label : String) (s : Dict) :
    lookupKey (setLog label s) "log" = some (logValue label) :=
  lookup_insert_self s "log" (logValue label)

theorem lookup_setLog_ne (label : String) (s : Dict) (k : String) (h : k ≠ "log") :
    lookupKey (setLog label s) k = lookupKey s k :=
  lookup_insert_ne s "log" k (logValue label) h

theorem setLog_noop (label : String) (s : Dict)
    (h : lookupKey s "log" = some (logValue label)) : setLog label s = s :=
  insert_lookup_eq_self s "log" (logValue label) h

theorem lookup_ensureWinlog_ne (s : Dict) (k : String) (h : k ≠ "winlog") :
    lookupKey (ensureWinlog s) k = lookupKey s k := by
  unfold ensureWinlog
  split
  · rfl
  · exact lookup_insert_ne s "winlog" k (.obj []) h

theorem ensureWinlog_isSome (s : Dict) :
    (lookupKey (ensureWinlog s) "winlog").isSome := by
  unfold ensureWinlog
  split
  · assumption
  · rw [lookup_insert_self]
    rfl

theorem ensureWinlog_cases (s : Dict) :
    lookupKey (ensureWinlog s) "winlog" = lookupKey s "winlog" ∨
    (lookupKey s "winlog" = none ∧
      lookupKey (ensureWinlog s) "winlog" = some (.obj [])) := by
  unfold ensureWinlog
  split
  · exact Or.inl rfl
  · refine Or.inr ⟨?_, lookup_insert_self s "winlog" (.obj [])⟩
    rename_i hno
    exact Option.not_isSome_iff_eq_none.mp hno

theorem ensureWinlog_noop (s : Dict) (h : (lookupKey s "winlog").isSome) :
    ensureWinlog s = s := by
  unfold ensureWinlog
  simp [h]

theorem moveEventData_skip (s : Dict) (h : lookupKey s "event_data" = none) :
    moveEventData s = some s := by
  simp [moveEventData, h]

theorem moveEventData_spec (s s' : Dict) (h : moveEventData s = some s') :
    lookupKey s' "event_data" = none ∧
    (∀ k, k ≠ "winlog" → k ≠ "event_data" → lookupKey s' k = lookupKey s k) ∧
    (∀ w, lookupKey s "winlog" = some (.obj w) →
      ∃ w', lookupKey s' "winlog" = some (.obj w') ∧
        ∀ k', k' ≠ "event_data" → lookupKey w' k' = lookupKey w k') := by
  unfold moveEventData at h
  rcases hed : lookupKey s "event_data" with _ | ed
  · simp only [hed] at h
    injection h with h
    subst h
    exact ⟨hed, fun k _ _ => rfl, fun w hw => ⟨w, hw, fun k' _ => rfl⟩⟩
  · simp only [hed] at h
    rcases hw0 : lookupKey s "winlog" with _ | j
    · simp only [hw0] at h
      exact Option.noConfusion h
    · cases j with
      | obj w₀ =>
        simp only [hw0] at h
        injection h with h
        subst h
        refine ⟨lookup_erase_self _ _, fun k hk1 hk2 => ?_, fun w hw => ?_⟩
        · rw [lookup_erase_ne _ _ _ hk2, lookup_insert_ne _ _ _ _ hk1]
        · injection hw with hww
          injection hww with hww
          subst hww
          refine ⟨insertKey w₀ "event_data" ed, ?_, fun k' hk' => lookup_insert_ne _ _ _ _ hk'⟩
          rw [lookup_erase_ne _ _ _ (by decide), lookup_insert_self]
      | null => simp only [hw0] at h; exact Option.noConfusion h
      | bool b => simp only [hw0] at h; exact Option.noConfusion h
      | num n => simp only [hw0] at h; exact Option.noConfusion h
      | str c => simp only [hw0] at h; exact Option.noConfusion h
      | arr xs => simp only [hw0] at h; exact Option.noConfusion h

theorem moveLogName_skip (s : Dict) (h : lookupKey s "log_name" = none) :
    moveLogName s = some s := by
  simp [moveLogName, h]

theorem moveLogName_spec (s s' : Dict) (h : moveLogName s = some s') :
    lookupKey s' "log_name" = none ∧
    (∀ k, k ≠ "winlog" → k ≠ "log_name" → lookupKey s' k = lookupKey s k) ∧
    (∀ w, lookupKey s "winlog" = some (.obj w) →
      ∃ w', lookupKey s' "winlog" = some (.obj w') ∧
        ∀ k', k' ≠ "channel" → lookupKey w' k' = lookupKey w k') := by
  unfold moveLogName at h
  rcases hln : lookupKey s "log_name" with _ | c
  · simp only [hln] at h
    injection h with h
    subst h
    exact ⟨hln, fun k _ _ => rfl, fun w hw => ⟨w, hw, fun k' _ => rfl⟩⟩
  · simp only [hln] at h
    rcases hw0 : lookupKey s "winlog" with _ | j
    · simp only [hw0] at h
      exact Option.noConfusion h
    · cases j with
      | obj w₀ =>
        simp only [hw0] at h
        injection h with h
        subst h
        refine ⟨lookup_erase_self _ _, fun k hk1 hk2 => ?_, fun w hw => ?_⟩
        · rw [lookup_erase_ne _ _ _ hk2, lookup_insert_ne _ _ _ _ hk1]
        · injection hw with hww
          injection hww with hww
          subst hww
          refine ⟨insertKey w₀ "channel" c, ?_, fun k' hk' => lookup_insert_ne _ _ _ _ hk'⟩
          rw [lookup_erase_ne _ _ _ (by decide), lookup_insert_self]
      | null => simp only [hw0] at h; exact Option.noConfusion h
      | bool b => simp only [hw0] at h; exact Option.noConfusion h
      | num n => simp only [hw0] at h; exact Option.noConfusion h
      | str c' => simp only [hw0] at h; exact Option.noConfusion h
      | arr xs => simp only [hw0] at h; exact Option.noConfusion h

theorem obj_some_inj {a b : List (String × Json)}
    (h : (some (Json.obj a) : Option Json) = some (Json.obj b)) : a = b := by
  have h' := Option.some.inj h
  rwa [Json.obj.injEq] at h'

theorem fixChannel_spec (s s' : Dict) (h : fixChannel s = some s') :
    (∀ k, k ≠ "winlog" → lookupKey s' k = lookupKey s k) ∧
    (∀ w', lookupKey s' "winlog" = some (.obj w') →
      lookupKey w' "channel" ≠ some (.str "security")) ∧
    (∀ w, lookupKey s "winlog" = some (.obj w) →
      ∃ w', lookupKey s' "winlog" = some (.obj w') ∧
        ∀ k', k' ≠ "channel" → lookupKey w' k' = lookupKey w k') := by
  unfold fixChannel at h
  rcases hw0 : lookupKey s "winlog" with _ | j
  · simp only [hw0] at h
    injection h with h
    subst h
    refine ⟨fun k _ => rfl, fun w' hw' => ?_, fun w hw => absurd hw (by simp)⟩
    exact absurd (hw0.symm.trans hw') (by simp)
  · cases j with
    | obj w₀ =>
      simp only [hw0] at h
      rcases hch : lookupKey w₀ "channel" with _ | cj
      · simp only [hch] at h
        injection h with h
        subst h
        refine ⟨fun k _ => rfl, fun w' hw' => ?_, fun w hw => ?_⟩
        · obtain rfl := obj_some_inj (hw0.symm.trans hw')
          rw [hch]
          exact fun hcon => Option.noConfusion hcon
        · obtain rfl := obj_some_inj hw
          exact ⟨w₀, hw0, fun k' _ => rfl⟩
      · cases cj with
        | str c =>
          by_cases hc : c = "security"
          · subst hc
            simp only [hch, if_pos rfl] at h
            injection h with h
            subst h
            refine ⟨fun k hk => lookup_insert_ne _ _ _ _ hk, fun w' hw' => ?_, fun w hw => ?_⟩
            · rw [lookup_insert_self] at hw'
              obtain rfl := obj_some_inj hw'
              rw [lookup_insert_self]
              intro hcon
              injection hcon with hcon
              injection hcon with hcon
              exact absurd hcon (by decide)
            · obtain rfl := obj_some_inj hw
              exact ⟨insertKey w₀ "channel" (.str "Security"), lookup_insert_self _ _ _,
                fun k' hk' => lookup_insert_ne _ _ _ _ hk'⟩
          · simp only [hch, if_neg hc] at h
            injection h with h
            subst h
            refine ⟨fun k _ => rfl, fun w' hw' => ?_, fun w hw => ?_⟩
            · obtain rfl := obj_some_inj (hw0.symm.trans hw')
              rw [hch]
              intro hcon
              injection hcon with hcon
              injection hcon with hcon
              exact hc hcon
            · obtain rfl := obj_some_inj hw
              exact ⟨w₀, hw0, fun k' _ => rfl⟩
        | null =>
          simp only [hch] at h
          injection h with h
          subst h
          refine ⟨fun k _ => rfl, fun w' hw' => ?_, fun w hw => ?_⟩
          · obtain rfl := obj_some_inj (hw0.symm.trans hw')
            rw [hch]
            intro hcon
            injection hcon with hcon
            exact Json.noConfusion hcon
          · obtain rfl := obj_some_inj hw
            exact ⟨w₀, hw0, fun k' _ => rfl⟩
        | bool b =>
          simp only [hch] at h
          injection h with h
          subst h
          refine ⟨fun k _ => rfl, fun w' hw' => ?_, fun w hw => ?_⟩
          · obtain rfl := obj_some_inj (hw0.symm.trans hw')
            rw [hch]
            intro hcon
            injection hcon with hcon
            exact Json.noConfusion hcon
          · obtain rfl := obj_some_inj hw
            exact ⟨w₀, hw0, fun k' _ => rfl⟩
        | num n =>
          simp only [hch] at h
          injection h with h
          subst h
          refine ⟨fun k _ => rfl, fun w' hw' => ?_, fun w hw => ?_⟩
          · obtain rfl := obj_some_inj (hw0.symm.trans hw')
            rw [hch]
            intro hcon
            injection hcon with hcon
            exact Json.noConfusion hcon
          · obtain rfl := obj_some_inj hw
            exact ⟨w₀, hw0, fun k' _ => rfl⟩
        | arr xs =>
          simp only [hch] at h
          injection h with h
          subst h
          refine ⟨fun k _ => rfl, fun w' hw' => ?_, fun w hw => ?_⟩
          · obtain rfl := obj_some_inj (hw0.symm.trans hw')
            rw [hch]
            intro hcon
            injection hcon with hcon
            exact Json.noConfusion hcon
          · obtain rfl := obj_some_inj hw
            exact ⟨w₀, hw0, fun k' _ => rfl⟩
        | obj fs =>
          simp only [hch] at h
          injection h with h
          subst h
          refine ⟨fun k _ => rfl, fun w' hw' => ?_, fun w hw => ?_⟩
          · obtain rfl := obj_some_inj (hw0.symm.trans hw')
            rw [hch]
            intro hcon
            injection hcon with hcon
            exact Json.noConfusion hcon
          · obtain rfl := obj_some_inj hw
            exact ⟨w₀, hw0, fun k' _ => rfl⟩
    | null => simp only [hw0] at h; exact Option.noConfusion h
    | bool b => simp only [hw0] at h; exact Option.noConfusion h
    | num n => simp only [hw0] at h; exact Option.noConfusion h
    | str c => simp only [hw0] at h; exact Option.noConfusion h
    | arr xs => simp only [hw0] at h; exact Option.noConfusion h

theorem fixChannel_noop (s : Dict) (w : List (String × Json))
    (hw : lookupKey s "winlog" = some (.obj w))
    (hc : lookupKey w "channel" ≠ some (.str "security")) :
    fixChannel s = some s := by
  unfold fixChannel
  simp only [hw]
  rcases hch : lookupKey w "channel" with _ | cj
  · rfl
  · cases cj with
    | str c =>
      have hcs : ¬ c = "security" := by
        intro hh
        exact hc (by rw [hch, hh])
      simp [hcs]
    | null => rfl
    | bool b => rfl
    | num n => rfl
    | arr xs => rfl
    | obj fs => rfl

theorem fixChannel_nonobj (s : Dict) (j : Json)
    (hj : lookupKey s "winlog" = some j) (hno : ∀ w, j ≠ .obj w) :
    fixChannel s = none := by
  cases j with
  | obj w => exact absurd rfl (hno w)
  | null => unfold fixChannel; simp [hj]
  | bool b => unfold fixChannel; simp [hj]
  | num n => unfold fixChannel; simp [hj]
  | str c => unfold fixChannel; simp [hj]
  | arr xs => unfold fixChannel; simp [hj]

theorem moveEventData_nonobj (s s' : Dict) (j : Json)
    (hj : lookupKey s "winlog" = some j) (hno : ∀ w, j ≠ .obj w)
    (h : moveEventData s = some s') : s' = s := by
  unfold moveEventData at h
  rcases hed : lookupKey s "event_data" with _ | ed
  · simp only [hed] at h
    exact (Option.some.inj h).symm
  · simp only [hed, hj] at h
    cases j with
    | obj w => exact absurd rfl (hno w)
    | null => exact Option.noConfusion h
    | bool b => exact Option.noConfusion h
    | num n => exact Option.noConfusion h
    | str c => exact Option.noConfusion h
    | arr xs => exact Option.noConfusion h

theorem moveLogName_nonobj (s s' : Dict) (j : Json)
    (hj : lookupKey s "winlog" = some j) (hno : ∀ w, j ≠ .obj w)
    (h : moveLogName s = some s') : s' = s := by
  unfold moveLogName at h
  rcases hln : lookupKey s "log_name" with _ | c
  · simp only [hln] at h
    exact (Option.some.inj h).symm
  · simp only [hln, hj] at h
    cases j with
    | obj w => exact absurd rfl (hno w)
    | null => exact Option.noConfusion h
    | bool b => exact Option.noConfusion h
    | num n => exact Option.noConfusion h
    | str c' => exact Option.noConfusion h
    | arr xs => exact Option.noConfusion h

theorem moveEventId_skip (s : Dict) (h : lookupKey s "event_id" = none) :
    moveEventId s = some s := by
  unfold moveEventId
  simp only [h]

theorem moveEventId_spec (s s' : Dict) (h : moveEventId s = some s') :
    lookupKey s' "event_id" = none ∧
    (∀ k, k ≠ "winlog" → k ≠ "event_id" → lookupKey s' k = lookupKey s k) ∧
    (∀ w', lookupKey s' "winlog" = some (.obj w') →
      ∃ w, lookupKey s "winlog" = some (.obj w) ∧
        ∀ k', k' ≠ "event_id" → lookupKey w' k' = lookupKey w k') := by
  unfold moveEventId at h
  rcases hv : lookupKey s "event_id" with _ | v
  · simp only [hv] at h
    injection h with h
    subst h
    exact ⟨hv, fun k _ _ => rfl, fun w' hw' => ⟨w', hw', fun k' _ => rfl⟩⟩
  · simp only [hv] at h
    rcases hw0 : lookupKey s "winlog" with _ | j
    · simp only [hw0] at h
      exact Option.noConfusion h
    · cases j with
      | obj w₀ =>
        simp only [hw0] at h
        injection h with h
        subst h
        refine ⟨lookup_erase_self _ _, fun k hk1 hk2 => ?_, fun w' hw' => ?_⟩
        · rw [lookup_erase_ne _ _ _ hk2, lookup_insert_ne _ _ _ _ hk1]
        · rw [lookup_erase_ne _ _ _ (by decide), lookup_insert_self] at hw'
          obtain rfl := obj_some_inj hw'
          exact ⟨w₀, rfl, fun k' hk' => lookup_insert_ne _ _ _ _ hk'⟩
      | null => simp only [hw0] at h; exact Option.noConfusion h
      | bool b => simp only [hw0] at h; exact Option.noConfusion h
      | num n => simp only [hw0] at h; exact Option.noConfusion h
      | str c => simp only [hw0] at h; exact Option.noConfusion h
      | arr xs => simp only [hw0] at h; exact Option.noConfusion h

theorem setEventCode_fail (s : Dict) (w : List (String × Json))
    (hw : lookupKey s "winlog" = some (.obj w))
    (hn : lookupKey w "event_id" = none) : setEventCode s = none := by
  unfold setEventCode
  simp only [hw, hn]

theorem setEventCode_spec (s r : Dict) (h : setEventCode s = some r) :
    ∃ w eid, lookupKey s "winlog" = some (.obj w) ∧
      lookupKey w "event_id" = some eid ∧
      lookupKey r "winlog" = some (.obj w) ∧
      (∃ e', lookupKey r "event" = some (.obj e') ∧ lookupKey e' "code" = some eid) ∧
      (∀ k, k ≠ "event" → lookupKey r k = lookupKey s k) := by
  unfold setEventCode at h
  rcases hw0 : lookupKey s "winlog" with _ | j
  · simp only [hw0] at h
    exact Option.noConfusion h
  · cases j with
    | obj w₀ =>
      simp only [hw0] at h
      rcases heid : lookupKey w₀ "event_id" with _ | eid
      · simp only [heid] at h
        exact Option.noConfusion h
      · simp only [heid] at h
        rcases hev : lookupKey s "event" with _ | ej
        · simp only [hev] at h
          injection h with h
          subst h
          refine ⟨w₀, eid, rfl, heid, ?_, ⟨[("code", eid)], lookup_insert_self _ _ _, rfl⟩,
            fun k hk => lookup_insert_ne _ _ _ _ hk⟩
          rw [lookup_insert_ne _ _ _ _ (by decide)]
          exact hw0
        · cases ej with
          | obj e =>
            simp only [hev] at h
            injection h with h
            subst h
            refine ⟨w₀, eid, rfl, heid, ?_,
              ⟨insertKey e "code" eid, lookup_insert_self _ _ _, lookup_insert_self _ _ _⟩,
              fun k hk => lookup_insert_ne _ _ _ _ hk⟩
            rw [lookup_insert_ne _ _ _ _ (by decide)]
            exact hw0
          | null => simp only [hev] at h; exact Option.noConfusion h
          | bool b => simp only [hev] at h; exact Option.noConfusion h
          | num n => simp only [hev] at h; exact Option.noConfusion h
          | str c => simp only [hev] at h; exact Option.noConfusion h
          | arr xs => simp only [hev] at h; exact Option.noConfusion h
    | null => simp only [hw0] at h; exact Option.noConfusion h
    | bool b => simp only [hw0] at h; exact Option.noConfusion h
    | num n => simp only [hw0] at h; exact Option.noConfusion h
    | str c => simp only [hw0] at h; exact Option.noConfusion h
    | arr xs => simp only [hw0] at h; exact Option.noConfusion h

theorem setEventCode_noop (r : Dict) (w e : List (String × Json)) (eid : Json)
    (hw : lookupKey r "winlog" = some (.obj w))
    (heid : lookupKey w "event_id" = some eid)
    (hev : lookupKey r "event" = some (.obj e))
    (hcode : lookupKey e "code" = some eid) :
    setEventCode r = some r := by
  unfold setEventCode
  simp only [hw, heid, hev]
  rw [insert_lookup_eq_self e "code" eid hcode, insert_lookup_eq_self r "event" (.obj e) hev]

theorem moveNxlog_skip (s : Dict) (h : lookupKey s "EventID" = none) :
    moveNxlog s = some s := by
  unfold moveNxlog
  simp only [h]

theorem lookup_foldl_erase (ed : List (String × Json)) (s : Dict) (k : String) :
    lookupKey (ed.foldl (fun acc kv => eraseKey acc kv.1) s) k =
      if k ∈ ed.map Prod.fst then none else lookupKey s k := by
  induction ed generalizing s with
  | nil => simp
  | cons kv rest ih =>
    simp only [List.foldl_cons, List.map_cons, List.mem_cons]
    rw [ih, lookup_erase]
    by_cases hk : k = kv.1
    · simp [hk]
    · by_cases hm : k ∈ List.map Prod.fst rest
      · simp [hm]
      · simp [hk, hm]

theorem eventDataOf_reserved_not_mem (s : Dict) (k : String) (hk : k ∈ reservedKeys) :
    k ∉ (eventDataOf s).map Prod.fst := by
  intro hmem
  obtain ⟨⟨k', v⟩, hin, hfst⟩ := List.mem_map.mp hmem
  have hcond := (List.mem_filter.mp hin).2
  simp only [Bool.not_eq_true'] at hcond
  rw [show k' = k from hfst] at hcond
  exact absurd hk (by simpa using hcond)

theorem moveNxlog_spec (s s' : Dict) (h : moveNxlog s = some s') :
    lookupKey s' "log" = lookupKey s "log" ∧ lookupKey s' "EventID" = none := by
  unfold moveNxlog at h
  rcases hE : lookupKey s "EventID" with _ | ev
  · simp only [hE] at h
    injection h with h
    subst h
    exact ⟨rfl, hE⟩
  · simp only [hE] at h
    rcases hw0 : lookupKey s "winlog" with _ | j
    · simp only [hw0] at h
      exact Option.noConfusion h
    · cases j with
      | obj w₀ =>
        simp only [hw0] at h
        set sb := eraseKey (eraseKey (eraseKey
          (insertKey s "winlog" (Json.obj (insertKey w₀ "event_id" ev)))
            "EventID") "type") "host" with hsb
        have hwb : lookupKey sb "winlog" = some (Json.obj (insertKey w₀ "event_id" ev)) := by
          rw [hsb, lookup_erase_ne _ _ _ (by decide), lookup_erase_ne _ _ _ (by decide),
            lookup_erase_ne _ _ _ (by decide), lookup_insert_self]
        simp only [hwb] at h
        set ed := eventDataOf sb with hed
        set winner := insertKey (insertKey w₀ "event_id" ev) "event_data" (Json.obj ed)
          with hwinner
        set sc := insertKey sb "winlog" (Json.obj winner) with hsc
        set sd := List.foldl (fun acc kv => eraseKey acc kv.1) sc ed with hsd
        have hsdw : lookupKey sd "winlog" = some (Json.obj winner) := by
          rw [hsd, lookup_foldl_erase, hed,
            if_neg (eventDataOf_reserved_not_mem sb "winlog" (by decide)), hsc,
            lookup_insert_self]
        have hsdlog : lookupKey sd "log" = lookupKey s "log" := by
          rw [hsd, lookup_foldl_erase, hed,
            if_neg (eventDataOf_reserved_not_mem sb "log" (by decide)), hsc,
            lookup_insert_ne _ _ _ _ (by decide), hsb,
            lookup_erase_ne _ _ _ (by decide), lookup_erase_ne _ _ _ (by decide),
            lookup_erase_ne _ _ _ (by decide), lookup_insert_ne _ _ _ _ (by decide)]
        have hsdE : lookupKey sd "EventID" = none := by
          rw [hsd, lookup_foldl_erase]
          split
          · rfl
          · rw [hsc, lookup_insert_ne _ _ _ _ (by decide), hsb,
              lookup_erase_ne _ _ _ (by decide), lookup_erase_ne _ _ _ (by decide),
              lookup_erase_self]
        rcases hH : lookupKey sd "Hostname" with _ | hv
        · simp only [hH] at h
          rcases hC : lookupKey sd "Channel" with _ | cv
          · simp only [hC] at h
            injection h with h
            subst h
            exact ⟨hsdlog, hsdE⟩
          · simp only [hC, hsdw] at h
            injection h with h
            subst h
            constructor
            · rw [lookup_erase_ne _ _ _ (by decide), lookup_insert_ne _ _ _ _ (by decide),
                hsdlog]
            · rw [lookup_erase_ne _ _ _ (by decide), lookup_insert_ne _ _ _ _ (by decide),
                hsdE]
        · simp only [hH, hsdw] at h
          set se := eraseKey (insertKey sd "winlog"
            (Json.obj (insertKey winner "computer_name" hv))) "Hostname" with hse
          have hselog : lookupKey se "log" = lookupKey s "log" := by
            rw [hse, lookup_erase_ne _ _ _ (by decide), lookup_insert_ne _ _ _ _ (by decide),
              hsdlog]
          have hseE : lookupKey se "EventID" = none := by
            rw [hse, lookup_erase_ne _ _ _ (by decide), lookup_insert_ne _ _ _ _ (by decide),
              hsdE]
          have hsew : lookupKey se "winlog" =
              some (Json.obj (insertKey winner "computer_name" hv)) := by
            rw [hse, lookup_erase_ne _ _ _ (by decide), lookup_insert_self]
          rcases hC : lookupKey se "Channel" with _ | cv
          · simp only [hC] at h
            injection h with h
            subst h
            exact ⟨hselog, hseE⟩
          · simp only [hC, hsew] at h
            injection h with h
            subst h
            constructor
            · rw [lookup_erase_ne _ _ _ (by decide), lookup_insert_ne _ _ _ _ (by decide),
                hselog]
            · rw [lookup_erase_ne _ _ _ (by decide), lookup_insert_ne _ _ _ _ (by decide),
                hseE]
      | null => simp only [hw0] at h; exact Option.noConfusion h
      | bool b => simp only [hw0] at h; exact Option.noConfusion h
      | num n => simp only [hw0] at h; exact Option.noConfusion h
      | str c => simp only [hw0] at h; exact Option.noConfusion h
      | arr xs => simp only [hw0] at h; exact Option.noConfusion h

/-- The shape every successful output of `normalize` has: the legacy
top-level keys are gone, `log` carries the file label, `winlog` is an
object with an `event_id` mirrored by `event.code`, and the channel is
never the lowercase string "security". -/
def NormalizedShape (label : String) (r : Dict) : Prop :=
  lookupKey r "EventID" = none ∧
  lookupKey r "event_data" = none ∧
  lookupKey r "log_name" = none ∧
  lookupKey r "event_id" = none ∧
  lookupKey r "log" = some (logValue label) ∧
  ∃ w eid e,
    lookupKey r "winlog" = some (.obj w) ∧
    lookupKey w "event_id" = some eid ∧
    lookupKey w "channel" ≠ some (.str "security") ∧
    lookupKey r "event" = some (.obj e) ∧
    lookupKey e "code" = some eid

theorem normalize_shape (label : String) (src r : Dict)
    (h : normalize label src = some r) : NormalizedShape label r := by
  unfold normalize at h
  rw [Option.bind_eq_some] at h
  obtain ⟨s₃, h₃, h⟩ := h
  rw [Option.bind_eq_some] at h
  obtain ⟨s₄, h₄, h⟩ := h
  rw [Option.bind_eq_some] at h
  obtain ⟨s₅, h₅, h⟩ := h
  rw [Option.bind_eq_some] at h
  obtain ⟨s₆, h₆, h⟩ := h
  rw [Option.bind_eq_some] at h
  obtain ⟨s₇, h₇, hfin⟩ := h
  obtain ⟨hNlog, hNE⟩ := moveNxlog_spec _ _ h₃
  obtain ⟨hDed, hDpres, hDw⟩ := moveEventData_spec _ _ h₄
  obtain ⟨hLln, hLpres, hLw⟩ := moveLogName_spec _ _ h₅
  obtain ⟨hFpres, hFch, hFw⟩ := fixChannel_spec _ _ h₆
  obtain ⟨hIeid, hIpres, hIback⟩ := moveEventId_spec _ _ h₇
  obtain ⟨w₇, eid, hw₇s, heid, hrw, ⟨e', hre, hcode⟩, hSpres⟩ := setEventCode_spec _ _ hfin
  refine ⟨?_, ?_, ?_, ?_, ?_, w₇, eid, e', hrw, heid, ?_, hre, hcode⟩
  · rw [hSpres "EventID" (by decide), hIpres "EventID" (by decide) (by decide),
      hFpres "EventID" (by decide), hLpres "EventID" (by decide) (by decide),
      hDpres "EventID" (by decide) (by decide), hNE]
  · rw [hSpres "event_data" (by decide), hIpres "event_data" (by decide) (by decide),
      hFpres "event_data" (by decide), hLpres "event_data" (by decide) (by decide), hDed]
  · rw [hSpres "log_name" (by decide), hIpres "log_name" (by decide) (by decide),
      hFpres "log_name" (by decide), hLln]
  · rw [hSpres "event_id" (by decide), hIeid]
  · rw [hSpres "log" (by decide), hIpres "log" (by decide) (by decide),
      hFpres "log" (by decide), hLpres "log" (by decide) (by decide),
      hDpres "log" (by decide) (by decide), hNlog,
      lookup_ensureWinlog_ne _ _ (by decide), lookup_setLog_log]
  · obtain ⟨w₆, hw₆, hpres₇₆⟩ := hIback w₇ hw₇s
    rw [hpres₇₆ "channel" (by decide)]
    exact hFch w₆ hw₆

theorem normalize_fixpoint (label : String) (r : Dict) (hr : NormalizedShape label r) :
    normalize label r = some r := by
  obtain ⟨hEID, hED, hLN, hEid, hLog, w, eid, e, hw, hweid, hch, hev, hcode⟩ := hr
  unfold normalize
  rw [setLog_noop label r hLog, ensureWinlog_noop r (by rw [hw]; rfl),
    moveNxlog_skip r hEID]
  simp only [Option.some_bind]
  rw [moveEventData_skip r hED]
  simp only [Option.some_bind]
  rw [moveLogName_skip r hLN]
  simp only [Option.some_bind]
  rw [fixChannel_noop r w hw hch]
  simp only [Option.some_bind]
  rw [moveEventId_skip r hEid]
  simp only [Option.some_bind]
  exact setEventCode_noop r w e eid hw hweid hev hcode

theorem lookup_eq_none_of_not_mem (l : Dict) (k : String)
    (h : k ∉ l.map Prod.fst) : lookupKey l k = none := by
  induction l with
  | nil => rfl
  | cons kv rest ih =>
    simp only [List.map_cons, List.mem_cons] at h
    push_neg at h
    obtain ⟨h1, h2⟩ := h
    obtain ⟨k₀, v₀⟩ := kv
    simp only [lookupKey]
    rw [if_neg (Ne.symm h1), ih h2]

theorem eventDataOf_no_log (s : Dict) : lookupKey (eventDataOf s) "log" = none :=
  lookup_eq_none_of_not_mem _ _ (eventDataOf_reserved_not_mem s "log" (by decide))

theorem normalize_tail_fails (s₂ : Dict) (w₀ : List (String × Json))
    (hw₂ : lookupKey s₂ "winlog" = some (.obj w₀))
    (hweid : lookupKey w₀ "event_id" = none)
    (hid₂ : lookupKey s₂ "event_id" = none) :
    ((moveEventData s₂).bind fun s₄ => (moveLogName s₄).bind fun s₅ =>
      (fixChannel s₅).bind fun s₆ => (moveEventId s₆).bind fun s₇ =>
        setEventCode s₇) = none := by
  rcases h₄ : moveEventData s₂ with _ | s₄
  · rfl
  · simp only [Option.some_bind]
    obtain ⟨-, hDpres, hDw⟩ := moveEventData_spec _ _ h₄
    obtain ⟨w₄, hw₄, hDinner⟩ := hDw w₀ hw₂
    have hw₄eid : lookupKey w₄ "event_id" = none := by
      rw [hDinner "event_id" (by decide), hweid]
    have hid₄ : lookupKey s₄ "event_id" = none := by
      rw [hDpres "event_id" (by decide) (by decide), hid₂]
    rcases h₅ : moveLogName s₄ with _ | s₅
    · rfl
    · simp only [Option.some_bind]
      obtain ⟨-, hLpres, hLw⟩ := moveLogName_spec _ _ h₅
      obtain ⟨w₅, hw₅, hLinner⟩ := hLw w₄ hw₄
      have hw₅eid : lookupKey w₅ "event_id" = none := by
        rw [hLinner "event_id" (by decide), hw₄eid]
      have hid₅ : lookupKey s₅ "event_id" = none := by
        rw [hLpres "event_id" (by decide) (by decide), hid₄]
      rcases h₆ : fixChannel s₅ with _ | s₆
      · rfl
      · simp only [Option.some_bind]
        obtain ⟨hFpres, -, hFw⟩ := fixChannel_spec _ _ h₆
        obtain ⟨w₆, hw₆, hFinner⟩ := hFw w₅ hw₅
        have hw₆eid : lookupKey w₆ "event_id" = none := by
          rw [hFinner "event_id" (by decide), hw₅eid]
        have hid₆ : lookupKey s₆ "event_id" = none := by
          rw [hFpres "event_id" (by decide), hid₅]
        rw [moveEventId_skip s₆ hid₆]
        simp only [Option.some_bind]
        exact setEventCode_fail s₆ w₆ hw₆ hw₆eid

theorem normalize_tail_fails_nonobj (s₂ : Dict) (j : Json)
    (hj : lookupKey s₂ "winlog" = some j) (hno : ∀ w, j ≠ .obj w) :
    ((moveEventData s₂).bind fun s₄ => (moveLogName s₄).bind fun s₅ =>
      (fixChannel s₅).bind fun s₆ => (moveEventId s₆).bind fun s₇ =>
        setEventCode s₇) = none := by
  rcases h₄ : moveEventData s₂ with _ | s₄
  · rfl
  · have hs₄ := moveEventData_nonobj s₂ s₄ j hj hno h₄
    simp only [Option.some_bind, hs₄]
    rcases h₅ : moveLogName s₂ with _ | s₅
    · rfl
    · have hs₅ := moveLogName_nonobj s₂ s₅ j hj hno h₅
      simp only [Option.some_bind, hs₅]
      rw [fixChannel_nonobj s₂ j hj hno]
      rfl

/-! ## Claim theorems -/

/-- `r[k₁][k₂]` for a nested dict: the value at `k₂` inside the object
stored at `k₁`, if both exist. -/
def getNested (r : Dict) (k₁ k₂ : String) : Option Json :=
  match lookupKey r k₁ with
  | some (.obj w) => lookupKey w k₂
  | _ => none

/-- C1 counterexample: for the record with both `EventID = 42` and
`event_id = 99`, `normalize` does NOT produce `winlog.event_id == 99`:
the dict comprehension of the `EventID` block relocates `event_id` into
`winlog.event_data` and deletes it from top level, so the later
`if "event_id" in source` rule never fires. -/
theorem eventId_precedence_counterexample :
    ¬ ∃ r, normalize "f" [("EventID", Json.num 42), ("event_id", Json.num 99)] = some r ∧
      getNested r "winlog" "event_id" = some (Json.num 99) ∧
      getNested r "event" "code" = some (Json.num 99) := by
  rintro ⟨r, hr, h99, -⟩
  have hnorm : normalize "f" [("EventID", Json.num 42), ("event_id", Json.num 99)] =
      some [("log", logValue "f"),
        ("winlog", Json.obj [("event_id", Json.num 42),
          ("event_data", Json.obj [("event_id", Json.num 99)])]),
        ("event", Json.obj [("code", Json.num 42)])] := rfl
  have hrr := hnorm.symm.trans hr
  injection hrr with hrr
  subst hrr
  injection h99 with h99
  injection h99 with h99
  exact absurd h99 (by decide)

/-- C1 amended: with both `EventID = 42` and `event_id = 99`, the
relocation step (2c) wins: the result has `winlog.event_id == 42`,
`event.code == 42`, and the `event_id = 99` pair ends up inside
`winlog.event_data`. -/
theorem eventId_precedence_amended :
    normalize "f" [("EventID", Json.num 42), ("event_id", Json.num 99)] =
      some [("log", logValue "f"),
        ("winlog", Json.obj [("event_id", Json.num 42),
          ("event_data", Json.obj [("event_id", Json.num 99)])]),
        ("event", Json.obj [("code", Json.num 42)])] ∧
    getNested [("log", logValue "f"),
        ("winlog", Json.obj [("event_id", Json.num 42),
          ("event_data", Json.obj [("event_id", Json.num 99)])]),
        ("event", Json.obj [("code", Json.num 42)])] "winlog" "event_id" =
      some (Json.num 42) ∧
    getNested [("log", logValue "f"),
        ("winlog", Json.obj [("event_id", Json.num 42),
          ("event_data", Json.obj [("event_id", Json.num 99)])]),
        ("event", Json.obj [("code", Json.num 42)])] "event" "code" =
      some (Json.num 42) := ⟨rfl, rfl, rfl⟩

/-- C5: field relocation completeness.  On the record
`{"EventID": 7, "Foo": "bar", "Hostname": "H1", "Channel": "Security",
"@timestamp": "t"}` with label `L`, `normalize` produces exactly the
claimed canonical dict: the computed output is a permutation of the
claimed key-value list (Python dict equality ignores insertion order),
with identical nested values. -/
theorem fieldRelocation_completeness :
    normalize "L" [("EventID", Json.num 7), ("Foo", Json.str "bar"),
        ("Hostname", Json.str "H1"), ("Channel", Json.str "Security"),
        ("@timestamp", Json.str "t")] =
      some ([("@timestamp", Json.str "t"), ("log", logValue "L")] ++
        [("winlog", Json.obj [("event_id", Json.num 7),
            ("event_data", Json.obj [("Foo", Json.str "bar")]),
            ("computer_name", Json.str "H1"),
            ("channel", Json.str "Security")]),
          ("event", Json.obj [("code", Json.num 7)])]) ∧
    List.Perm
      ([("@timestamp", Json.str "t"), ("log", logValue "L")] ++
        [("winlog", Json.obj [("event_id", Json.num 7),
            ("event_data", Json.obj [("Foo", Json.str "bar")]),
            ("computer_name", Json.str "H1"),
            ("channel", Json.str "Security")]),
          ("event", Json.obj [("code", Json.num 7)])])
      ([("winlog", Json.obj [("event_id", Json.num 7),
            ("event_data", Json.obj [("Foo", Json.str "bar")]),
            ("computer_name", Json.str "H1"),
            ("channel", Json.str "Security")]),
          ("event", Json.obj [("code", Json.num 7)])] ++
        [("@timestamp", Json.str "t"), ("log", logValue "L")]) :=
  ⟨rfl, List.perm_append_comm⟩

/-- C3: idempotence of normalization.  Whenever `normalize` succeeds, a
second application with the same file label returns its input unchanged. -/
theorem normalize_idempotent (label : String) (src r : Dict)
    (h : normalize label src = some r) : normalize label r = some r :=
  normalize_fixpoint label r (normalize_shape label src r h)

/-- C3 witness: idempotence at the concrete record `{"EventID": 1}`. -/
theorem normalize_idempotent_witness :
    normalize "L" [("log", logValue "L"),
      ("winlog", Json.obj [("event_id", Json.num 1), ("event_data", Json.obj [])]),
      ("event", Json.obj [("code", Json.num 1)])] =
    some [("log", logValue "L"),
      ("winlog", Json.obj [("event_id", Json.num 1), ("event_data", Json.obj [])]),
      ("event", Json.obj [("code", Json.num 1)])] :=
  normalize_idempotent "L" [("EventID", Json.num 1)] _ rfl

/-- C4: canonical-record invariant.  Every successful `normalize` output
has `event.code` equal to `winlog.event_id` and carries
`log = {"file": {"name": label}}`. -/
theorem canonical_invariant (label : String) (src r : Dict)
    (h : normalize label src = some r) :
    (∃ eid, getNested r "winlog" "event_id" = some eid ∧
      getNested r "event" "code" = some eid) ∧
    lookupKey r "log" = some (logValue label) := by
  obtain ⟨-, -, -, -, hLog, w, eid, e, hw, hweid, -, hev, hcode⟩ :=
    normalize_shape label src r h
  refine ⟨⟨eid, ?_, ?_⟩, hLog⟩
  · unfold getNested
    rw [hw]
    exact hweid
  · unfold getNested
    rw [hev]
    exact hcode

/-- C4 witness: the invariant at the concrete record `{"EventID": 1}`. -/
theorem canonical_invariant_witness :
    (∃ eid, getNested [("log", logValue "L"),
        ("winlog", Json.obj [("event_id", Json.num 1), ("event_data", Json.obj [])]),
        ("event", Json.obj [("code", Json.num 1)])] "winlog" "event_id" = some eid ∧
      getNested [("log", logValue "L"),
        ("winlog", Json.obj [("event_id", Json.num 1), ("event_data", Json.obj [])]),
        ("event", Json.obj [("code", Json.num 1)])] "event" "code" = some eid) ∧
    lookupKey [("log", logValue "L"),
        ("winlog", Json.obj [("event_id", Json.num 1), ("event_data", Json.obj [])]),
        ("event", Json.obj [("code", Json.num 1)])] "log" = some (logValue "L") :=
  canonical_invariant "L" [("EventID", Json.num 1)] _ rfl

/-- C6: channel case normalization.  At the point where the script checks
the channel (after the relocation rules), a `winlog.channel` equal to the
lowercase string "security" is rewritten to "Security"; any other value,
including an already-correct "Security", leaves the record unchanged. -/
theorem channel_case_normalization (s : Dict) (w : List (String × Json))
    (hw : lookupKey s "winlog" = some (.obj w)) :
    (lookupKey w "channel" = some (.str "security") →
      fixChannel s =
        some (insertKey s "winlog" (.obj (insertKey w "channel" (.str "Security"))))) ∧
    (lookupKey w "channel" ≠ some (.str "security") → fixChannel s = some s) := by
  constructor
  · intro hc
    unfold fixChannel
    simp only [hw, hc]
    rw [if_pos trivial]
  · exact fun hc => fixChannel_noop s w hw hc

/-- C6 witness: the rewrite fires on a concrete lowercase channel. -/
theorem channel_case_normalization_witness :
    fixChannel [("winlog", Json.obj [("channel", Json.str "security")])] =
      some (insertKey [("winlog", Json.obj [("channel", Json.str "security")])] "winlog"
        (Json.obj (insertKey [("channel", Json.str "security")] "channel"
          (Json.str "Security")))) :=
  (channel_case_normalization [("winlog", Json.obj [("channel", Json.str "security")])]
    [("channel", Json.str "security")] rfl).1 rfl

/-- C7: missing event-id failure.  If a record has neither a top-level
`EventID` nor a top-level `event_id`, and its `winlog` mapping (if any)
has no `event_id`, then `normalize` fails (the script raises a KeyError
at the line that sets `event.code`); no default value is produced. -/
theorem missing_eventId_fails (label : String) (src : Dict)
    (hE : lookupKey src "EventID" = none)
    (hid : lookupKey src "event_id" = none)
    (hw : ∀ w, lookupKey src "winlog" = some (.obj w) →
      lookupKey w "event_id" = none) :
    normalize label src = none := by
  have hE₂ : lookupKey (ensureWinlog (setLog label src)) "EventID" = none := by
    rw [lookup_ensureWinlog_ne _ _ (by decide), lookup_setLog_ne _ _ _ (by decide), hE]
  have hid₂ : lookupKey (ensureWinlog (setLog label src)) "event_id" = none := by
    rw [lookup_ensureWinlog_ne _ _ (by decide), lookup_setLog_ne _ _ _ (by decide), hid]
  unfold normalize
  rw [moveNxlog_skip _ hE₂]
  simp only [Option.some_bind]
  rcases ensureWinlog_cases (setLog label src) with hcase | ⟨hnone, hcase⟩
  · have hw₂ : lookupKey (ensureWinlog (setLog label src)) "winlog" =
        lookupKey src "winlog" := by
      rw [hcase, lookup_setLog_ne _ _ _ (by decide)]
    rcases hsrcw : lookupKey src "winlog" with _ | j
    · exfalso
      have hs := ensureWinlog_isSome (setLog label src)
      rw [hw₂, hsrcw] at hs
      exact Bool.noConfusion hs
    · cases j with
      | obj w₀ =>
        exact normalize_tail_fails _ w₀ (by rw [hw₂, hsrcw]) (hw w₀ hsrcw) hid₂
      | null =>
        exact normalize_tail_fails_nonobj _ Json.null (by rw [hw₂, hsrcw])
          (fun w hh => Json.noConfusion hh)
      | bool b =>
        exact normalize_tail_fails_nonobj _ (Json.bool b) (by rw [hw₂, hsrcw])
          (fun w hh => Json.noConfusion hh)
      | num n =>
        exact normalize_tail_fails_nonobj _ (Json.num n) (by rw [hw₂, hsrcw])
          (fun w hh => Json.noConfusion hh)
      | str c =>
        exact normalize_tail_fails_nonobj _ (Json.str c) (by rw [hw₂, hsrcw])
          (fun w hh => Json.noConfusion hh)
      | arr xs =>
        exact normalize_tail_fails_nonobj _ (Json.arr xs) (by rw [hw₂, hsrcw])
          (fun w hh => Json.noConfusion hh)
  · exact normalize_tail_fails _ [] (by rw [hcase]) rfl hid₂

/-- C7 witness: a record with no event id anywhere is rejected. -/
theorem missing_eventId_fails_witness :
    normalize "L" [("Foo", Json.str "x")] = none :=
  missing_eventId_fails "L" [("Foo", Json.str "x")] rfl rfl
    (fun _ hcon => Option.noConfusion hcon)

/-- C10: top-level `log` overwrite.  The normalized record's `log` field
is exactly `{"file": {"name": label}}` whatever `log` value the raw
record carried, and the relocation step (the `event_data` comprehension)
never moves a `log` key: `log` is in the reserved set. -/
theorem log_overwrite (label : String) (src r extra : Dict)
    (h : normalize label src = some r) :
    lookupKey r "log" = some (logValue label) ∧
    lookupKey (eventDataOf extra) "log" = none := by
  obtain ⟨-, -, -, -, hLog, -⟩ := normalize_shape label src r h
  exact ⟨hLog, eventDataOf_no_log extra⟩

/-- C10 witness: a raw record carrying `log = "junk"` still comes out
with the canonical `log` object, and a dict holding a `log` key
contributes no `log` entry to `winlog.event_data`. -/
theorem log_overwrite_witness :
    lookupKey [("log", logValue "L"),
      ("winlog", Json.obj [("event_id", Json.num 1), ("event_data", Json.obj [])]),
      ("event", Json.obj [("code", Json.num 1)])] "log" = some (logValue "L") ∧
    lookupKey (eventDataOf [("log", Json.str "x"), ("Foo", Json.num 2)]) "log" = none :=
  log_overwrite "L" [("EventID", Json.num 1), ("log", Json.str "junk")] _
    [("log", Json.str "x"), ("Foo", Json.num 2)] rfl

/-! ## Pipeline lemmas and claims -/

theorem splitAfterNL_sum (bs : List Nat) :
    ((splitAfterNL bs).map List.length).sum = bs.length := by
  induction bs with
  | nil => rfl
  | cons b rest ih =>
    unfold splitAfterNL
    by_cases hb : b = 10
    · rw [if_pos hb]
      simp only [List.map_cons, List.sum_cons, List.length_cons, List.length, ih]
      omega
    · rw [if_neg hb]
      rcases hsp : splitAfterNL rest with _ | ⟨l, ls⟩
      · rw [hsp] at ih
        simp only [List.map_nil, List.sum_nil] at ih
        simp only [List.map_cons, List.map_nil, List.sum_cons, List.sum_nil,
          List.length_cons, List.length]
        omega
      · rw [hsp] at ih
        simp only [List.map_cons, List.sum_cons, List.length_cons] at ih ⊢
        omega

theorem shipLines_bytes (post : Dict → Nat) (parse : List Nat → Option Dict)
    (label : String) :
    ∀ (lines : List (List Nat)) (s f b s' f' b' : Nat),
      shipLines post parse label lines (s, f, b) = .ok (s', f', b') →
      b' = b + (lines.map List.length).sum := by
  intro lines
  induction lines with
  | nil =>
    intro s f b s' f' b' h
    simp only [shipLines] at h
    injection h with h
    rw [Prod.mk.injEq, Prod.mk.injEq] at h
    obtain ⟨-, -, h3⟩ := h
    simp [h3.symm]
  | cons line rest ih =>
    intro s f b s' f' b' h
    unfold shipLines at h
    rcases hp : parse line with _ | raw
    · simp only [hp] at h
      exact Except.noConfusion h
    · simp only [hp] at h
      rcases hn : normalize label raw with _ | rec
      · simp only [hn] at h
        exact Except.noConfusion h
      · simp only [hn] at h
        by_cases hpost : post rec = 200
        · rw [if_pos hpost] at h
          have hb := ih _ _ _ _ _ _ h
          simp only [List.map_cons, List.sum_cons]
          omega
        · rw [if_neg hpost] at h
          have hb := ih _ _ _ _ _ _ h
          simp only [List.map_cons, List.sum_cons]
          omega

theorem shipLines_bad_line (post : Dict → Nat) (parse : List Nat → Option Dict)
    (label : String) :
    ∀ (lines : List (List Nat)) (acc : Nat × Nat × Nat) (bad : List Nat),
      bad ∈ lines → parse bad = none →
      shipLines post parse label lines acc = .error () := by
  intro lines
  induction lines with
  | nil =>
    intro acc bad hmem
    exact absurd hmem (List.not_mem_nil bad)
  | cons line rest ih =>
    intro acc bad hmem hparse
    obtain ⟨s, f, b⟩ := acc
    unfold shipLines
    rcases hp : parse line with _ | raw
    · rfl
    · rcases List.mem_cons.mp hmem with rfl | hmem'
      · rw [hparse] at hp
        exact Option.noConfusion hp
      · rcases hn : normalize label raw with _ | rec
        · simp only [hn]
        · simp only [hn]
          by_cases hpost : post rec = 200
          · rw [if_pos hpost]
            exact ih _ bad hmem' hparse
          · rw [if_neg hpost]
            exact ih _ bad hmem' hparse

theorem processMember_bad_line (post : Dict → Nat) (parse : List Nat → Option Dict)
    (label : String) (content : List Nat) (bad : List Nat)
    (hmem : bad ∈ splitAfterNL content) (hparse : parse bad = none) :
    processMember post parse label content = .error () :=
  shipLines_bad_line post parse label (splitAfterNL content) (0, 0, 0) bad hmem hparse

theorem runMembers_error (post : Dict → Nat) (parse : List Nat → Option Dict)
    (path : String) :
    ∀ (pre : List Member) (m : Member) (rest : List Member),
      processMember post parse (path ++ "/" ++ m.name) m.content = .error () →
      runMembers post parse path (pre ++ m :: rest) = .error () := by
  intro pre
  induction pre with
  | nil =>
    intro m rest hfail
    simp only [List.nil_append]
    unfold runMembers
    rw [hfail]
  | cons m₀ pre' ih =>
    intro m rest hfail
    simp only [List.cons_append]
    unfold runMembers
    rcases h₀ : processMember post parse (path ++ "/" ++ m₀.name) m₀.content with e | val
    · rfl
    · obtain ⟨s, f, b⟩ := val
      rw [ih m rest hfail]

theorem runArchives_error (post : Dict → Nat) (parse : List Nat → Option Dict) :
    ∀ (pre : List Archive) (a : Archive) (rest : List Archive)
      (preM : List Member) (m : Member) (restM : List Member),
      a.members = preM ++ m :: restM →
      processMember post parse (a.path ++ "/" ++ m.name) m.content = .error () →
      runArchives post parse (pre ++ a :: rest) = .error () := by
  intro pre
  induction pre with
  | nil =>
    intro a rest preM m restM hmem hfail
    simp only [List.nil_append]
    unfold runArchives
    rw [hmem, runMembers_error post parse a.path preM m restM hfail]
  | cons a₀ pre' ih =>
    intro a rest preM m restM hmem hfail
    simp only [List.cons_append]
    unfold runArchives
    rcases h₀ : runMembers post parse a₀.path a₀.members with e | val
    · rfl
    · obtain ⟨ts, tf⟩ := val
      rw [ih a rest preM m restM hmem hfail]

/-- C2 amended: parse failures are NOT isolated to the member.  The
script wraps no exception handler around the member loop, so a malformed
JSON line in any member of any archive propagates out of
`generate_actions` and aborts the entire run: no remaining member or
archive is processed and the final totals are never reached. -/
theorem parse_failure_aborts_run (post : Dict → Nat) (parse : List Nat → Option Dict)
    (pre rest : List Archive) (a : Archive) (preM restM : List Member) (m : Member)
    (bad : List Nat) (hmem : a.members = preM ++ m :: restM)
    (hbad : bad ∈ splitAfterNL m.content) (hparse : parse bad = none) :
    runArchives post parse (pre ++ a :: rest) = .error () :=
  runArchives_error post parse pre a rest preM m restM hmem
    (processMember_bad_line post parse (a.path ++ "/" ++ m.name) m.content bad hbad hparse)

/-- C2 amended witness: a concrete two-archive run with one malformed
line in the first member aborts with an error. -/
theorem parse_failure_aborts_run_witness :
    runArchives (fun _ => 200)
      (fun bs => if bs = [98, 10] then none else some [("event_id", Json.num 1)])
      ([] ++ (⟨"p", [⟨"m1", [98, 10]⟩, ⟨"m2", [103, 10]⟩]⟩ : Archive) ::
        [⟨"q", [⟨"m3", [103, 10]⟩]⟩]) = .error () :=
  parse_failure_aborts_run (fun _ => 200)
    (fun bs => if bs = [98, 10] then none else some [("event_id", Json.num 1)])
    [] [⟨"q", [⟨"m3", [103, 10]⟩]⟩] ⟨"p", [⟨"m1", [98, 10]⟩, ⟨"m2", [103, 10]⟩]⟩
    [] [⟨"m2", [103, 10]⟩] ⟨"m1", [98, 10]⟩ [98, 10] rfl (by decide) rfl

/-- C2 counterexample: the claim that a parse failure stops only the
current member and the run continues is false.  On a concrete run whose
first member has one malformed line, the whole run aborts with an error
(the second member and the second archive are never counted), whereas
the identical run without the malformed member imports both remaining
members successfully. -/
theorem parse_failure_isolation_counterexample :
    runArchives (fun _ => 200)
      (fun bs => if bs = [98, 10] then none else some [("event_id", Json.num 1)])
      [⟨"p", [⟨"m1", [98, 10]⟩, ⟨"m2", [103, 10]⟩]⟩, ⟨"q", [⟨"m3", [103, 10]⟩]⟩] =
      .error () ∧
    runArchives (fun _ => 200)
      (fun bs => if bs = [98, 10] then none else some [("event_id", Json.num 1)])
      [⟨"p", [⟨"m2", [103, 10]⟩]⟩, ⟨"q", [⟨"m3", [103, 10]⟩]⟩] = .ok (2, 0) :=
  ⟨rfl, rfl⟩

/-- C8: byte accounting.  When a member is processed to completion (all
lines parse, normalize and are shipped), the byte count accumulated by
the progress updates equals the member's size from the size-scan pass. -/
theorem byte_accounting (post : Dict → Nat) (parse : List Nat → Option Dict)
    (label : String) (m : Member) (s f b : Nat)
    (h : processMember post parse label m.content = .ok (s, f, b)) :
    b = m.size := by
  unfold processMember at h
  have hb := shipLines_bytes post parse label (splitAfterNL m.content) 0 0 0 s f b h
  rw [hb, Nat.zero_add, splitAfterNL_sum]
  rfl

/-- C8 witness: a two-line member of 3 bytes accounts for exactly 3
bytes. -/
theorem byte_accounting_witness :
    (3 : Nat) = Member.size ⟨"m", [103, 10, 104]⟩ :=
  byte_accounting (fun _ => 200) (fun _ => some [("event_id", Json.num 1)]) "a/m"
    ⟨"m", [103, 10, 104]⟩ 2 0 3 rfl

theorem logstashSend_loop (post : Dict → Nat) :
    ∀ (events : List Dict) (s f : Nat),
      events.foldl
        (fun sf e => if post e = 200 then (sf.1 + 1, sf.2) else (sf.1, sf.2 + 1)) (s, f) =
      (s + events.countP (fun e => post e == 200),
        f + events.countP (fun e => !(post e == 200))) := by
  intro events
  induction events with
  | nil =>
    intro s f
    simp
  | cons e rest ih =>
    intro s f
    simp only [List.foldl_cons, List.countP_cons]
    by_cases hp : post e = 200
    · have h1 : (post e == 200) = true := by simp [hp]
      have h2 : ¬ ((!(post e == 200)) = true) := by simp [hp]
      rw [if_pos hp, ih, if_pos h1, if_neg h2, Prod.mk.injEq]
      exact ⟨by omega, by omega⟩
    · have h1 : ¬ ((post e == 200) = true) := by simp [hp]
      have h2 : (!(post e == 200)) = true := by simp [hp]
      rw [if_neg hp, ih, if_neg h1, if_pos h2, Prod.mk.injEq]
      exact ⟨by omega, by omega⟩

theorem countP_post_split (post : Dict → Nat) (events : List Dict) :
    events.countP (fun e => post e == 200) +
      events.countP (fun e => !(post e == 200)) = events.length := by
  induction events with
  | nil => rfl
  | cons e rest ih =>
    simp only [List.countP_cons, List.length_cons]
    by_cases hp : (post e == 200) = true
    · have h2 : ¬ ((!(post e == 200)) = true) := by simp [hp]
      rw [if_pos hp, if_neg h2]
      omega
    · have h2 : (!(post e == 200)) = true := by
        simp only [Bool.not_eq_true] at hp ⊢
        simp [hp]
      rw [if_neg hp, if_pos h2]
      omega

/-- C9: post-sink outcome.  In the Logstash send loop a record is
counted as a success exactly when the HTTP status is 200; any other
status increments the failure counter instead, nothing is raised, and
every record of the stream is processed (successes and failures add up
to the number of records). -/
theorem postSink_outcome (post : Dict → Nat) (events : List Dict) :
    (logstashSend post events).1 = events.countP (fun e => post e == 200) ∧
    (logstashSend post events).2 = events.countP (fun e => !(post e == 200)) ∧
    (logstashSend post events).1 + (logstashSend post events).2 = events.length := by
  unfold logstashSend
  rw [logstashSend_loop]
  refine ⟨by simp, by simp, ?_⟩
  simpa using countP_post_split post events

end Mordor
